import Mathlib

/-!
Verification of the `tester` CLI harness (src/main.rs).

The embedding below translates the program's core into Lean:

* `Cli` mirrors the parsed command line (struct `Cli`).
* `doTestGo` / `doTest` mirror `TesterInfo::do_test` together with the
  aggregator updates `append_result` / `append_run_times`.  The behaviour of
  the child process at each iteration is abstracted as a function
  `env : Nat → SpawnResult`; score parsing (`String::from_utf8` + `trim` +
  `parse::<f64>`) is abstracted as `parse : Bytes → Option ℚ`, where `none`
  covers both UTF-8 decode failure and number-parse failure.  Scores are
  modelled as rationals: the claims proved here concern which iterations
  contribute to the accumulator and when the process aborts, not float
  rounding.  A Rust panic (`unwrap` / `expect`) is modelled as an abort value
  `TestAbort`: once a worker panics, none of the code after the panicking
  line runs, so no further aggregator updates happen on that worker.
* `spawnList` / `mainSpawns` mirror the worker-spawning loop in `main`,
  recording for each launched worker both the computed `times_this_thread`
  (first component) and the value actually passed to `do_test`, which in the
  source is `times_per_thread` (second component).
* `runAll` is the whole run after all workers joined: the aggregate state is
  the sum of every worker's contributions (addition of the deltas commutes,
  so the interleaving of the atomic updates does not matter for the final
  value).
* `printSummary` mirrors `TesterInfo::print_summary`, producing structured
  lines; `renderHeader` gives the literal text of the two header lines and
  `avgValue` the rational value of the f64 quotient carried by a score line
  (the line stores the two division operands exactly as the source computes
  them: `total_score` and the `u32` difference used as denominator).
-/

namespace Tester

/-- Captured bytes of a child-process stream (Rust `Vec<u8>`). -/
abbrev Bytes := List Nat

/-- The parsed command line (struct `Cli` in src/main.rs).  `times` is the
`-n` flag (`u32`) and `threads` the `-p` flag (`u8`); both are modelled as
`Nat`, with the 8-bit range of `threads` imposed where a claim depends on
it (`parseThreadsArg`). -/
structure Cli where
  silent : Bool
  score : Bool
  progress : Bool
  times : Nat
  threads : Nat
  exec : String
  execArgs : List String
  deriving Repr, DecidableEq

/-- Outcome of one attempt to run the child process: `spawnFail` models
`Command::spawn` returning `Err`, `waitFail` models `wait_with_output`
returning `Err`, and `ok` carries the exit status (`status.success()`) and
the captured stdout/stderr bytes. -/
inductive SpawnResult where
  | spawnFail
  | waitFail
  | ok (success : Bool) (stdout stderr : Bytes)
  deriving Repr, DecidableEq

/-- One write of captured child output to the harness's own streams
(`stdout.write_all` / `stderr.write_all`, performed only when `--silent`
is off). -/
inductive Echo where
  | out (b : Bytes)
  | err (b : Bytes)
  deriving Repr, DecidableEq

/-- A worker panic inside `do_test`, with the iteration index at which it
happened: `spawnFailed` is `expect("cmd failed to start")`, `waitFailed` is
`expect("Unable to run cmd")`, and `scoreParseFailed` covers both
`String::from_utf8(..).unwrap()` and `trim().parse().unwrap()`. -/
inductive TestAbort where
  | spawnFailed (iter : Nat)
  | waitFailed (iter : Nat)
  | scoreParseFailed (iter : Nat)
  deriving Repr, DecidableEq

/-- The local state of one worker's `do_test` loop: the local counters
`run_times`, `fail_times`, `total_scores`, the echoes written so far, and
`pushed`, the number of increments already sent to the shared `run_times`
counter via `append_run_times(1)` (which happens per iteration exactly when
`--progress` is on). -/
structure LoopState where
  run : Nat := 0
  fail : Nat := 0
  scores : ℚ := 0
  echoes : List Echo := []
  pushed : Nat := 0
  deriving Repr, DecidableEq

/-- End-of-iteration bookkeeping: `run_times += 1` and, when `--progress`
is on, `self.append_run_times(1)`. -/
def stepRun (cli : Cli) (st : LoopState) : LoopState :=
  { st with
      run := st.run + 1,
      pushed := st.pushed + (if cli.progress then 1 else 0) }

/-- Echo of one iteration's captured output (`stdout.write_all(&p_ret.stdout)`
then `stderr.write_all(&p_ret.stderr)`), skipped entirely under `--silent`. -/
def echoUpd (cli : Cli) (st : LoopState) (o e : Bytes) : LoopState :=
  if cli.silent then st
  else { st with echoes := st.echoes ++ [Echo.out o, Echo.err e] }

/-- The body of `TesterInfo::do_test`'s `for` loop, iterating the remaining
count `r` with `i` the absolute iteration index (used to query the
environment and the cancellation flag).  Returns `some abort` when the
worker panics, together with the local state at that moment. -/
def doTestGo (cli : Cli) (parse : Bytes → Option ℚ) (env : Nat → SpawnResult)
    (cancel : Nat → Bool) : Nat → Nat → LoopState → Option TestAbort × LoopState
  | _, 0, st => (none, st)
  | i, r + 1, st =>
    if cancel i then (none, st)
    else
      match env i with
      | SpawnResult.spawnFail => (some (TestAbort.spawnFailed i), st)
      | SpawnResult.waitFail => (some (TestAbort.waitFailed i), st)
      | SpawnResult.ok success o e =>
        let st1 := echoUpd cli st o e
        if success = false then
          doTestGo cli parse env cancel (i + 1) r
            (stepRun cli { st1 with fail := st1.fail + 1 })
        else if cli.score then
          match parse o with
          | none => (some (TestAbort.scoreParseFailed i), st1)
          | some q =>
            doTestGo cli parse env cancel (i + 1) r
              (stepRun cli { st1 with scores := st1.scores + q })
        else
          doTestGo cli parse env cancel (i + 1) r (stepRun cli st1)

/-- What a finished (or panicked) worker contributed to the shared
aggregate: the deltas added to `run_times`, `fail_times` and
`total_scores`. -/
structure GlobalDelta where
  runDelta : Nat
  failDelta : Nat
  scoreDelta : ℚ
  deriving Repr, DecidableEq

/-- Result of one whole `do_test` call. -/
structure DoTestResult where
  abort : Option TestAbort
  final : LoopState
  delta : GlobalDelta
  deriving Repr, DecidableEq

/-- `TesterInfo::do_test(times)`: run the loop from a zeroed local state;
afterwards `append_result(fail_times, total_scores)` (which adds to the
shared score only when `--score` is on) and, when `--progress` is off,
`append_run_times(run_times)`.  On a panic none of that code runs, so the
worker's only contribution is the per-iteration `run_times` increments it
already pushed. -/
def doTest (cli : Cli) (parse : Bytes → Option ℚ) (env : Nat → SpawnResult)
    (cancel : Nat → Bool) (times : Nat) : DoTestResult :=
  match doTestGo cli parse env cancel 0 times {} with
  | (some a, st) => ⟨some a, st, ⟨st.pushed, 0, 0⟩⟩
  | (none, st) =>
    ⟨none, st,
      ⟨st.pushed + (if cli.progress then 0 else st.run),
        st.fail,
        if cli.score then st.scores else 0⟩⟩

/-- Cancellation flag that becomes (and stays) set from observation index
`c` on: the flag is monotone in the source because `ctrlc_signal` is set
once and never cleared. -/
def cancelAt (c : Nat) : Nat → Bool := fun i => decide (c ≤ i)

/-- The cancellation flag is never set. -/
def noCancel : Nat → Bool := fun _ => false

/-- Environment in which every spawn and wait succeeds: iteration `i`
exits successfully iff `succ i`, with stdout `o i` and stderr `e i`. -/
def okEnv (succ : Nat → Bool) (o e : Nat → Bytes) : Nat → SpawnResult :=
  fun i => SpawnResult.ok (succ i) (o i) (e i)

/-- The worker-spawning `for` loop in `main`, with `k` the remaining loop
count and `extra` the current `times_extra`.  For each launched worker it
records `(times_this_thread, value passed to do_test)`; the source passes
`times_per_thread`, not `times_this_thread`, to `do_test`.  The loop breaks
at the first worker whose `times_this_thread` is 0. -/
def spawnList (timesPerThread : Nat) : Nat → Nat → List (Nat × Nat)
  | 0, _ => []
  | k + 1, extra =>
    let t := if 0 < extra then timesPerThread + 1 else timesPerThread
    let extra1 := if 0 < extra then extra - 1 else extra
    if t = 0 then []
    else (t, timesPerThread) :: spawnList timesPerThread k extra1

/-- The worker launches performed by `main`: `threads` is clamped below by
1 (`std::cmp::max(threads, 1)`), then the loop distributes
`times % threads` extra iterations over the first workers. -/
def mainSpawns (times threads0 : Nat) : List (Nat × Nat) :=
  spawnList (times / max threads0 1) (max threads0 1) (times % max threads0 1)

/-- The shared aggregate state (`TesterInfo`'s counters) after all workers
joined. -/
structure TesterInfo where
  failTimes : Nat
  runTimes : Nat
  totalScores : ℚ
  deriving Repr, DecidableEq

/-- Merge one worker's contribution into the aggregate. -/
def addDelta (g : TesterInfo) (d : GlobalDelta) : TesterInfo :=
  ⟨g.failTimes + d.failDelta, g.runTimes + d.runDelta, g.totalScores + d.scoreDelta⟩

/-- The aggregate state read by `print_summary` after every worker joined:
worker `w` (in creation order) runs `do_test` on the value `main` passed
it, against its own child behaviour `envs w` and its own observations
`cancels w` of the shared flag.  The shared counters are sums of the
per-worker deltas, so the final value is the fold of the contributions. -/
def runAll (cli : Cli) (parse : Bytes → Option ℚ)
    (envs : Nat → Nat → SpawnResult) (cancels : Nat → Nat → Bool) : TesterInfo :=
  ((mainSpawns cli.times cli.threads).enum).foldl
    (fun acc wp => addDelta acc (doTest cli parse (envs wp.1) (cancels wp.1) wp.2.2).delta)
    ⟨0, 0, 0⟩

/-- One line of `print_summary` output.  A score line carries the two
operands of the f64 division the source performs: the accumulated
`total_score` and the `u32` denominator (`run_times - fail_times`, or
`run_times`). -/
inductive SummaryLine where
  | failed (failTimes runTimes : Nat)
  | noFailure (runTimes : Nat)
  | avgIgnoreFailed (total : ℚ) (denom : Nat)
  | avgAll (total : ℚ) (denom : Nat)
  deriving Repr, DecidableEq

/-- `TesterInfo::print_summary`: branch on `fail_times > 0`, then print the
average-score line exactly when `--score` is on.  `runTimes - failTimes` is
the source's `u32` subtraction (the function is only ever called with
`failTimes ≤ runTimes`). -/
def printSummary (score : Bool) (failTimes runTimes : Nat) (totalScore : ℚ) :
    List SummaryLine :=
  if 0 < failTimes then
    SummaryLine.failed failTimes runTimes ::
      (if score then [SummaryLine.avgIgnoreFailed totalScore (runTimes - failTimes)] else [])
  else
    SummaryLine.noFailure runTimes ::
      (if score then [SummaryLine.avgAll totalScore runTimes] else [])

/-- Literal text of the two header lines (`println!` format strings in
`print_summary`). -/
def renderHeader : SummaryLine → Option String
  | SummaryLine.failed f r =>
    some ("#tester finished. " ++ ("Failed " ++ toString f ++ " / " ++ toString r))
  | SummaryLine.noFailure r =>
    some ("#tester finished. " ++ ("No failure in " ++ toString r ++ " runs."))
  | _ => none

/-- Exact value of the division a score line performs, as a rational (the
source divides in f64; for a nonzero denominator the f64 quotient rounds
this exact value). -/
def avgValue : SummaryLine → Option ℚ
  | SummaryLine.avgIgnoreFailed t d => some (t / (d : ℚ))
  | SummaryLine.avgAll t d => some (t / (d : ℚ))
  | _ => none

/-- Sum of `f` over the `r` indices starting at `i` (expected value of the
score accumulator). -/
def scoreSum (f : Nat → ℚ) : Nat → Nat → ℚ
  | _, 0 => 0
  | i, r + 1 => f i + scoreSum f (i + 1) r

/-- Number of failing iterations among the `r` indices starting at `i`. -/
def failCount (succ : Nat → Bool) : Nat → Nat → Nat
  | _, 0 => 0
  | i, r + 1 => (if succ i then 0 else 1) + failCount succ (i + 1) r

/-- Expected echo sequence of `r` iterations starting at `i`: per iteration
the captured stdout then the captured stderr, in that order. -/
def echoTrace (o e : Nat → Bytes) : Nat → Nat → List Echo
  | _, 0 => []
  | i, r + 1 => Echo.out (o i) :: Echo.err (e i) :: echoTrace o e (i + 1) r

/-- Modelled from the spec: the argument-parsing collaborator (§6) produces
the validated configuration and rejects malformed invocations before the
engine starts.  The `threads` field is declared `u8` in `Cli`
(src/main.rs line 33), so a `-p` value outside `0..=255` is a parse error,
not clamped. -/
def parseThreadsArg (n : Nat) : Option Nat :=
  if n ≤ 255 then some n else none

end Tester

namespace Tester

theorem echoUpd_run (cli : Cli) (st : LoopState) (o e : Bytes) :
    (echoUpd cli st o e).run = st.run := by
  unfold echoUpd; split <;> rfl

theorem echoUpd_fail (cli : Cli) (st : LoopState) (o e : Bytes) :
    (echoUpd cli st o e).fail = st.fail := by
  unfold echoUpd; split <;> rfl

theorem echoUpd_scores (cli : Cli) (st : LoopState) (o e : Bytes) :
    (echoUpd cli st o e).scores = st.scores := by
  unfold echoUpd; split <;> rfl

theorem echoUpd_pushed (cli : Cli) (st : LoopState) (o e : Bytes) :
    (echoUpd cli st o e).pushed = st.pushed := by
  unfold echoUpd; split <;> rfl

theorem echoUpd_echoes (cli : Cli) (st : LoopState) (o e : Bytes) :
    (echoUpd cli st o e).echoes =
      st.echoes ++ (if cli.silent then [] else [Echo.out o, Echo.err e]) := by
  unfold echoUpd; split <;> simp

theorem doTestGo_zero (cli : Cli) (parse : Bytes → Option ℚ) (env : Nat → SpawnResult)
    (cancel : Nat → Bool) (i : Nat) (st : LoopState) :
    doTestGo cli parse env cancel i 0 st = (none, st) := rfl

theorem doTestGo_cancel (cli : Cli) (parse : Bytes → Option ℚ)
    (env : Nat → SpawnResult) (cancel : Nat → Bool) (i r : Nat) (st : LoopState)
    (h : cancel i = true) :
    doTestGo cli parse env cancel i (r + 1) st = (none, st) := by
  simp [doTestGo, h]

theorem doTestGo_spawnFail (cli : Cli) (parse : Bytes → Option ℚ)
    (env : Nat → SpawnResult) (cancel : Nat → Bool) (i r : Nat) (st : LoopState)
    (hc : cancel i = false) (he : env i = SpawnResult.spawnFail) :
    doTestGo cli parse env cancel i (r + 1) st =
      (some (TestAbort.spawnFailed i), st) := by
  simp [doTestGo, hc, he]

theorem doTestGo_waitFail (cli : Cli) (parse : Bytes → Option ℚ)
    (env : Nat → SpawnResult) (cancel : Nat → Bool) (i r : Nat) (st : LoopState)
    (hc : cancel i = false) (he : env i = SpawnResult.waitFail) :
    doTestGo cli parse env cancel i (r + 1) st =
      (some (TestAbort.waitFailed i), st) := by
  simp [doTestGo, hc, he]

theorem doTestGo_okFail (cli : Cli) (parse : Bytes → Option ℚ)
    (env : Nat → SpawnResult) (cancel : Nat → Bool) (i r : Nat) (st : LoopState)
    (o e : Bytes) (hc : cancel i = false) (he : env i = SpawnResult.ok false o e) :
    doTestGo cli parse env cancel i (r + 1) st =
      doTestGo cli parse env cancel (i + 1) r
        (stepRun cli { echoUpd cli st o e with fail := (echoUpd cli st o e).fail + 1 }) := by
  simp [doTestGo, hc, he]

theorem doTestGo_okNoScore (cli : Cli) (parse : Bytes → Option ℚ)
    (env : Nat → SpawnResult) (cancel : Nat → Bool) (i r : Nat) (st : LoopState)
    (o e : Bytes) (hc : cancel i = false) (he : env i = SpawnResult.ok true o e)
    (hs : cli.score = false) :
    doTestGo cli parse env cancel i (r + 1) st =
      doTestGo cli parse env cancel (i + 1) r (stepRun cli (echoUpd cli st o e)) := by
  simp [doTestGo, hc, he, hs]

theorem doTestGo_okScore (cli : Cli) (parse : Bytes → Option ℚ)
    (env : Nat → SpawnResult) (cancel : Nat → Bool) (i r : Nat) (st : LoopState)
    (o e : Bytes) (q : ℚ) (hc : cancel i = false)
    (he : env i = SpawnResult.ok true o e) (hs : cli.score = true)
    (hq : parse o = some q) :
    doTestGo cli parse env cancel i (r + 1) st =
      doTestGo cli parse env cancel (i + 1) r
        (stepRun cli
          { echoUpd cli st o e with scores := (echoUpd cli st o e).scores + q }) := by
  simp [doTestGo, hc, he, hs, hq]

theorem doTestGo_okScoreNone (cli : Cli) (parse : Bytes → Option ℚ)
    (env : Nat → SpawnResult) (cancel : Nat → Bool) (i r : Nat) (st : LoopState)
    (o e : Bytes) (hc : cancel i = false) (he : env i = SpawnResult.ok true o e)
    (hs : cli.score = true) (hq : parse o = none) :
    doTestGo cli parse env cancel i (r + 1) st =
      (some (TestAbort.scoreParseFailed i), echoUpd cli st o e) := by
  simp [doTestGo, hc, he, hs, hq]

/-- Characterisation of a clean run of `do_test`'s loop: no cancellation,
every spawn and wait succeeds, and every successful iteration's stdout
parses whenever scoring is on.  The loop then finishes without abort, runs
all `r` remaining iterations, counts the failures, accumulates exactly the
parsed scores of the successful iterations (when scoring is on), echoes
each iteration's stdout then stderr (when not silent), and pushes one
shared run-counter increment per iteration (when progress is on). -/
theorem doTestGo_clean (cli : Cli) (parse : Bytes → Option ℚ) (succ : Nat → Bool)
    (o e : Nat → Bytes) (qf : Nat → ℚ) :
    ∀ (r i : Nat) (st : LoopState),
      (∀ j, i ≤ j → j < i + r → succ j = true → cli.score = true →
        parse (o j) = some (qf j)) →
      doTestGo cli parse (okEnv succ o e) noCancel i r st =
        (none,
          ⟨st.run + r, st.fail + failCount succ i r,
            st.scores +
              (if cli.score then scoreSum (fun j => if succ j then qf j else 0) i r
                else 0),
            st.echoes ++ (if cli.silent then [] else echoTrace o e i r),
            st.pushed + (if cli.progress then r else 0)⟩) := by
  intro r
  induction r with
  | zero =>
    intro i st _
    simp [doTestGo_zero, failCount, scoreSum, echoTrace]
  | succ r ih =>
    intro i st hp
    have hp1 : ∀ j, i + 1 ≤ j → j < i + 1 + r → succ j = true → cli.score = true →
        parse (o j) = some (qf j) :=
      fun j h1 h2 h3 h4 => hp j (by omega) (by omega) h3 h4
    have hnc : noCancel i = false := rfl
    have henv : okEnv succ o e i = SpawnResult.ok (succ i) (o i) (e i) := rfl
    cases hsucc : succ i with
    | false =>
      rw [hsucc] at henv
      rw [doTestGo_okFail cli parse _ _ i r st (o i) (e i) hnc henv, ih (i + 1) _ hp1]
      cases hsil : cli.silent <;> cases hsco : cli.score <;> cases hpro : cli.progress <;>
        simp [stepRun, failCount, scoreSum, echoTrace, echoUpd, hsucc, hsil, hsco, hpro,
          Prod.mk.injEq, LoopState.mk.injEq] <;>
        (repeat' constructor) <;> omega
    | true =>
      rw [hsucc] at henv
      cases hsco : cli.score with
      | true =>
        rw [doTestGo_okScore cli parse _ _ i r st (o i) (e i) (qf i) hnc henv hsco
            (hp i (by omega) (by omega) hsucc hsco), ih (i + 1) _ hp1]
        cases hsil : cli.silent <;> cases hpro : cli.progress <;>
          simp [stepRun, failCount, scoreSum, echoTrace, echoUpd, hsucc, hsil, hsco, hpro,
            Prod.mk.injEq, LoopState.mk.injEq] <;>
          (repeat' constructor) <;> first | omega | ring
      | false =>
        rw [doTestGo_okNoScore cli parse _ _ i r st (o i) (e i) hnc henv hsco,
          ih (i + 1) _ hp1]
        cases hsil : cli.silent <;> cases hpro : cli.progress <;>
          simp [stepRun, failCount, scoreSum, echoTrace, echoUpd, hsucc, hsil, hsco, hpro,
            Prod.mk.injEq, LoopState.mk.injEq] <;>
          (repeat' constructor) <;> omega

theorem iterate_run (cli : Cli) (st : LoopState) (o e : Bytes) (q : ℚ) :
    (stepRun cli { echoUpd cli st o e with fail := (echoUpd cli st o e).fail + 1 }).run
        = st.run + 1 ∧
    (stepRun cli (echoUpd cli st o e)).run = st.run + 1 ∧
    (stepRun cli
        { echoUpd cli st o e with scores := (echoUpd cli st o e).scores + q }).run
      = st.run + 1 := by
  cases hsil : cli.silent <;> simp [stepRun, echoUpd, hsil]

theorem doTest_none (cli : Cli) (parse : Bytes → Option ℚ) (env : Nat → SpawnResult)
    (cancel : Nat → Bool) (times : Nat) (st : LoopState)
    (h : doTestGo cli parse env cancel 0 times {} = (none, st)) :
    doTest cli parse env cancel times =
      ⟨none, st,
        ⟨st.pushed + (if cli.progress then 0 else st.run), st.fail,
          if cli.score then st.scores else 0⟩⟩ := by
  simp [doTest, h]

theorem doTest_some (cli : Cli) (parse : Bytes → Option ℚ) (env : Nat → SpawnResult)
    (cancel : Nat → Bool) (times : Nat) (a : TestAbort) (st : LoopState)
    (h : doTestGo cli parse env cancel 0 times {} = (some a, st)) :
    doTest cli parse env cancel times = ⟨some a, st, ⟨st.pushed, 0, 0⟩⟩ := by
  simp [doTest, h]

/-- If two environments agree on every index of the window at which the
cancellation flag is not yet observed set, the loop behaves identically:
an iteration at which the flag is set never consults the environment, i.e.
no child process is spawned there. -/
theorem doTestGo_env_agree (cli : Cli) (parse : Bytes → Option ℚ)
    (cancel : Nat → Bool) (env1 env2 : Nat → SpawnResult) :
    ∀ (r i : Nat) (st : LoopState),
      (∀ j, i ≤ j → j < i + r → cancel j = false → env1 j = env2 j) →
      doTestGo cli parse env1 cancel i r st = doTestGo cli parse env2 cancel i r st := by
  intro r
  induction r with
  | zero =>
    intro i st _
    rw [doTestGo_zero, doTestGo_zero]
  | succ r ih =>
    intro i st hag
    have hag1 : ∀ j, i + 1 ≤ j → j < i + 1 + r → cancel j = false → env1 j = env2 j :=
      fun j h1 h2 h3 => hag j (by omega) (by omega) h3
    cases hc : cancel i with
    | true =>
      rw [doTestGo_cancel _ _ _ _ _ _ _ hc, doTestGo_cancel _ _ _ _ _ _ _ hc]
    | false =>
      have he : env1 i = env2 i := hag i (by omega) (by omega) hc
      cases he2 : env2 i with
      | spawnFail =>
        rw [doTestGo_spawnFail _ _ _ _ _ _ _ hc (he.trans he2),
          doTestGo_spawnFail _ _ _ _ _ _ _ hc he2]
      | waitFail =>
        rw [doTestGo_waitFail _ _ _ _ _ _ _ hc (he.trans he2),
          doTestGo_waitFail _ _ _ _ _ _ _ hc he2]
      | ok success o e =>
        cases success with
        | false =>
          rw [doTestGo_okFail _ _ _ _ _ _ _ _ _ hc (he.trans he2),
            doTestGo_okFail _ _ _ _ _ _ _ _ _ hc he2]
          exact ih (i + 1) _ hag1
        | true =>
          cases hs : cli.score with
          | false =>
            rw [doTestGo_okNoScore _ _ _ _ _ _ _ _ _ hc (he.trans he2) hs,
              doTestGo_okNoScore _ _ _ _ _ _ _ _ _ hc he2 hs]
            exact ih (i + 1) _ hag1
          | true =>
            cases hq : parse o with
            | none =>
              rw [doTestGo_okScoreNone _ _ _ _ _ _ _ _ _ hc (he.trans he2) hs hq,
                doTestGo_okScoreNone _ _ _ _ _ _ _ _ _ hc he2 hs hq]
            | some q =>
              rw [doTestGo_okScore _ _ _ _ _ _ _ _ _ q hc (he.trans he2) hs hq,
                doTestGo_okScore _ _ _ _ _ _ _ _ _ q hc he2 hs hq]
              exact ih (i + 1) _ hag1

/-- Under the monotone flag `cancelAt c`, a loop that does not abort
completes exactly the iterations before the flag was observed: starting at
index `i` with `r` remaining, it adds `min (c - i) r` to the local run
count. -/
theorem doTestGo_cancelAt_run (cli : Cli) (parse : Bytes → Option ℚ)
    (env : Nat → SpawnResult) (c : Nat) :
    ∀ (r i : Nat) (st : LoopState),
      (doTestGo cli parse env (cancelAt c) i r st).1 = none →
      (doTestGo cli parse env (cancelAt c) i r st).2.run = st.run + min (c - i) r := by
  intro r
  induction r with
  | zero =>
    intro i st _
    rw [doTestGo_zero]
    simp
  | succ r ih =>
    intro i st hnone
    by_cases hci : c ≤ i
    · have hc : cancelAt c i = true := by simp [cancelAt, hci]
      rw [doTestGo_cancel _ _ _ _ _ _ _ hc] at hnone ⊢
      have : c - i = 0 := by omega
      simp [this]
    · have hc : cancelAt c i = false := by simp [cancelAt]; omega
      cases he : env i with
      | spawnFail =>
        rw [doTestGo_spawnFail _ _ _ _ _ _ _ hc he] at hnone
        exact absurd hnone (by simp)
      | waitFail =>
        rw [doTestGo_waitFail _ _ _ _ _ _ _ hc he] at hnone
        exact absurd hnone (by simp)
      | ok success o e =>
        cases success with
        | false =>
          rw [doTestGo_okFail _ _ _ _ _ _ _ _ _ hc he] at hnone ⊢
          rw [ih (i + 1) _ hnone]
          have hr := (iterate_run cli st o e 0).1
          omega
        | true =>
          cases hs : cli.score with
          | false =>
            rw [doTestGo_okNoScore _ _ _ _ _ _ _ _ _ hc he hs] at hnone ⊢
            rw [ih (i + 1) _ hnone]
            have hr := (iterate_run cli st o e 0).2.1
            omega
          | true =>
            cases hq : parse o with
            | none =>
              rw [doTestGo_okScoreNone _ _ _ _ _ _ _ _ _ hc he hs hq] at hnone
              exact absurd hnone (by simp)
            | some q =>
              rw [doTestGo_okScore _ _ _ _ _ _ _ _ _ q hc he hs hq] at hnone ⊢
              rw [ih (i + 1) _ hnone]
              have hr := (iterate_run cli st o e q).2.2
              omega

/-- Invariant of a worker's local state: the local failure count never
exceeds the local run count, and the increments already pushed to the
shared run counter equal the local run count when `--progress` is on and
zero otherwise. -/
def Inv (cli : Cli) (st : LoopState) : Prop :=
  st.fail ≤ st.run ∧ st.pushed = (if cli.progress then st.run else 0)

theorem Inv_iterate (cli : Cli) (st : LoopState) (o e : Bytes) (q : ℚ)
    (h : Inv cli st) :
    Inv cli (stepRun cli { echoUpd cli st o e with fail := (echoUpd cli st o e).fail + 1 }) ∧
    Inv cli (stepRun cli (echoUpd cli st o e)) ∧
    Inv cli (stepRun cli { echoUpd cli st o e with scores := (echoUpd cli st o e).scores + q }) := by
  obtain ⟨h1, h2⟩ := h
  cases hsil : cli.silent <;> cases hpro : cli.progress <;>
    simp [Inv, stepRun, echoUpd, hsil, hpro] at h2 ⊢ <;> omega

/-- Whatever the environment, the cancellation pattern and the starting
state, the loop preserves `Inv` and completes at most `r` more
iterations. -/
theorem doTestGo_inv (cli : Cli) (parse : Bytes → Option ℚ) (env : Nat → SpawnResult)
    (cancel : Nat → Bool) :
    ∀ (r i : Nat) (st : LoopState), Inv cli st →
      Inv cli (doTestGo cli parse env cancel i r st).2 ∧
        (doTestGo cli parse env cancel i r st).2.run ≤ st.run + r := by
  intro r
  induction r with
  | zero =>
    intro i st h
    rw [doTestGo_zero]
    exact ⟨h, Nat.le_refl _⟩
  | succ r ih =>
    intro i st h
    cases hc : cancel i with
    | true =>
      rw [doTestGo_cancel _ _ _ _ _ _ _ hc]
      exact ⟨h, by show st.run ≤ st.run + (r + 1); omega⟩
    | false =>
      cases he : env i with
      | spawnFail =>
        rw [doTestGo_spawnFail _ _ _ _ _ _ _ hc he]
        exact ⟨h, by show st.run ≤ st.run + (r + 1); omega⟩
      | waitFail =>
        rw [doTestGo_waitFail _ _ _ _ _ _ _ hc he]
        exact ⟨h, by show st.run ≤ st.run + (r + 1); omega⟩
      | ok success o e =>
        cases success with
        | false =>
          rw [doTestGo_okFail _ _ _ _ _ _ _ _ _ hc he]
          obtain ⟨ha, hb⟩ := ih (i + 1) _ ((Inv_iterate cli st o e 0 h).1)
          exact ⟨ha, by
            have hr := (iterate_run cli st o e 0).1
            omega⟩
        | true =>
          cases hs : cli.score with
          | false =>
            rw [doTestGo_okNoScore _ _ _ _ _ _ _ _ _ hc he hs]
            obtain ⟨ha, hb⟩ := ih (i + 1) _ ((Inv_iterate cli st o e 0 h).2.1)
            exact ⟨ha, by
              have hr := (iterate_run cli st o e 0).2.1
              omega⟩
          | true =>
            cases hq : parse o with
            | none =>
              rw [doTestGo_okScoreNone _ _ _ _ _ _ _ _ _ hc he hs hq]
              refine ⟨?_, ?_⟩
              · obtain ⟨h1, h2⟩ := h
                cases hsil : cli.silent <;> cases hpro : cli.progress <;>
                  simp [Inv, echoUpd, hsil, hpro] at h2 ⊢ <;> omega
              · rw [echoUpd_run]; omega
            | some q =>
              rw [doTestGo_okScore _ _ _ _ _ _ _ _ _ q hc he hs hq]
              obtain ⟨ha, hb⟩ := ih (i + 1) _ ((Inv_iterate cli st o e q h).2.2)
              exact ⟨ha, by
                have hr := (iterate_run cli st o e q).2.2
                omega⟩

/-- Abort behaviour of the loop when iteration `k` is the first to go
wrong: every earlier iteration spawns fine (and parses fine if it succeeded
and scoring is on).  Then a spawn failure, a wait failure, or — with
scoring on — an unparsable stdout of a successful run at `k` aborts the
worker exactly there, with exactly the `k - i` earlier iterations
completed. -/
theorem doTestGo_abort_at (cli : Cli) (parse : Bytes → Option ℚ)
    (env : Nat → SpawnResult) (k : Nat) :
    ∀ (r i : Nat) (st : LoopState), i ≤ k → k < i + r →
      (∀ j, i ≤ j → j < k → ∃ s o e, env j = SpawnResult.ok s o e ∧
          (s = true → cli.score = true → (parse o).isSome)) →
      ((env k = SpawnResult.spawnFail →
          (doTestGo cli parse env noCancel i r st).1 = some (TestAbort.spawnFailed k) ∧
          (doTestGo cli parse env noCancel i r st).2.run = st.run + (k - i)) ∧
       (env k = SpawnResult.waitFail →
          (doTestGo cli parse env noCancel i r st).1 = some (TestAbort.waitFailed k) ∧
          (doTestGo cli parse env noCancel i r st).2.run = st.run + (k - i)) ∧
       (∀ o e, env k = SpawnResult.ok true o e → cli.score = true → parse o = none →
          (doTestGo cli parse env noCancel i r st).1 = some (TestAbort.scoreParseFailed k) ∧
          (doTestGo cli parse env noCancel i r st).2.run = st.run + (k - i))) := by
  intro r
  induction r with
  | zero =>
    intro i st h1 h2 _
    omega
  | succ r ih =>
    intro i st h1 h2 hprev
    have hnc : noCancel i = false := rfl
    by_cases hik : i = k
    · subst hik
      refine ⟨?_, ?_, ?_⟩
      · intro he
        rw [doTestGo_spawnFail _ _ _ _ _ _ _ hnc he]
        exact ⟨rfl, by simp⟩
      · intro he
        rw [doTestGo_waitFail _ _ _ _ _ _ _ hnc he]
        exact ⟨rfl, by simp⟩
      · intro o e he hs hq
        rw [doTestGo_okScoreNone _ _ _ _ _ _ _ _ _ hnc he hs hq]
        simp [echoUpd_run]
    · have hik2 : i < k := by omega
      obtain ⟨s, o, e, heq, hS⟩ := hprev i (by omega) hik2
      have hprev1 : ∀ j, i + 1 ≤ j → j < k → ∃ s o e, env j = SpawnResult.ok s o e ∧
          (s = true → cli.score = true → (parse o).isSome) :=
        fun j hj1 hj2 => hprev j (by omega) hj2
      cases s with
      | false =>
        rw [doTestGo_okFail _ _ _ _ _ _ _ _ _ hnc heq]
        have hr := (iterate_run cli st o e 0).1
        obtain ⟨ha, hb, hcc⟩ := ih (i + 1) _ (by omega) (by omega) hprev1
        refine ⟨?_, ?_, ?_⟩
        · intro he2
          obtain ⟨x, y⟩ := ha he2
          exact ⟨x, by omega⟩
        · intro he2
          obtain ⟨x, y⟩ := hb he2
          exact ⟨x, by omega⟩
        · intro o2 e2 he2 hs2 hq2
          obtain ⟨x, y⟩ := hcc o2 e2 he2 hs2 hq2
          exact ⟨x, by omega⟩
      | true =>
        cases hs : cli.score with
        | false =>
          rw [doTestGo_okNoScore _ _ _ _ _ _ _ _ _ hnc heq hs]
          have hr := (iterate_run cli st o e 0).2.1
          obtain ⟨ha, hb, hcc⟩ := ih (i + 1) _ (by omega) (by omega) hprev1
          refine ⟨?_, ?_, ?_⟩
          · intro he2
            obtain ⟨x, y⟩ := ha he2
            exact ⟨x, by omega⟩
          · intro he2
            obtain ⟨x, y⟩ := hb he2
            exact ⟨x, by omega⟩
          · intro o2 e2 he2 hs2 hq2
            exact absurd hs2 (by simp [hs])
        | true =>
          obtain ⟨q, hq⟩ := Option.isSome_iff_exists.mp (hS rfl hs)
          rw [doTestGo_okScore _ _ _ _ _ _ _ _ _ q hnc heq hs hq]
          have hr := (iterate_run cli st o e q).2.2
          obtain ⟨ha, hb, hcc⟩ := ih (i + 1) _ (by omega) (by omega) hprev1
          refine ⟨?_, ?_, ?_⟩
          · intro he2
            obtain ⟨x, y⟩ := ha he2
            exact ⟨x, by omega⟩
          · intro he2
            obtain ⟨x, y⟩ := hb he2
            exact ⟨x, by omega⟩
          · intro o2 e2 he2 hs2 hq2
            obtain ⟨x, y⟩ := hcc o2 e2 he2 hs hq2
            exact ⟨x, by omega⟩

/-- The contribution of a single worker to the shared counters never has
more failures than runs and never exceeds the iteration count it was
given. -/
theorem doTest_delta_bounds (cli : Cli) (parse : Bytes → Option ℚ)
    (env : Nat → SpawnResult) (cancel : Nat → Bool) (times : Nat) :
    (doTest cli parse env cancel times).delta.failDelta ≤
        (doTest cli parse env cancel times).delta.runDelta ∧
      (doTest cli parse env cancel times).delta.runDelta ≤ times := by
  have hInv0 : Inv cli ({} : LoopState) := by simp [Inv]
  have h := doTestGo_inv cli parse env cancel times 0 {} hInv0
  rcases hgo : doTestGo cli parse env cancel 0 times {} with ⟨a, st⟩
  rw [hgo] at h
  obtain ⟨⟨hfr0, hpu0⟩, hrun0⟩ := h
  have hfr : st.fail ≤ st.run := hfr0
  have hpu : st.pushed = (if cli.progress then st.run else 0) := hpu0
  have hrun : st.run ≤ 0 + times := hrun0
  cases a with
  | none =>
    rw [doTest_none _ _ _ _ _ _ hgo]
    cases hpro : cli.progress <;> simp [hpro] at hpu ⊢ <;> omega
  | some a =>
    rw [doTest_some _ _ _ _ _ _ _ hgo]
    cases hpro : cli.progress <;> simp [hpro] at hpu ⊢ <;> omega

theorem spawnList_succ_pos (tpt k e : Nat) (h : 0 < e) :
    spawnList tpt (k + 1) e = (tpt + 1, tpt) :: spawnList tpt k (e - 1) := by
  rw [spawnList]
  simp [h]

theorem spawnList_succ_zero (tpt k : Nat) (ht : tpt ≠ 0) :
    spawnList tpt (k + 1) 0 = (tpt, tpt) :: spawnList tpt k 0 := by
  rw [spawnList]
  simp [ht]

theorem spawnList_succ_break (k : Nat) :
    spawnList 0 (k + 1) 0 = [] := by
  rw [spawnList]
  simp

theorem spawnList_length_le (tpt : Nat) :
    ∀ (k e : Nat), (spawnList tpt k e).length ≤ k := by
  intro k
  induction k with
  | zero =>
    intro e
    rw [spawnList]
    simp
  | succ k ih =>
    intro e
    by_cases he : 0 < e
    · rw [spawnList_succ_pos tpt k e he]
      simpa using ih (e - 1)
    · have he0 : e = 0 := by omega
      subst he0
      by_cases ht : tpt = 0
      · subst ht
        rw [spawnList_succ_break]
        simp
      · rw [spawnList_succ_zero tpt k ht]
        simpa using ih 0

theorem spawnList_snd_eq (tpt : Nat) :
    ∀ (k e : Nat) (p : Nat × Nat), p ∈ spawnList tpt k e → p.2 = tpt := by
  intro k
  induction k with
  | zero =>
    intro e p hp
    rw [spawnList] at hp
    simp at hp
  | succ k ih =>
    intro e p hp
    by_cases he : 0 < e
    · rw [spawnList_succ_pos tpt k e he] at hp
      rcases List.mem_cons.mp hp with h | h
      · rw [h]
      · exact ih _ p h
    · have he0 : e = 0 := by omega
      subst he0
      by_cases ht : tpt = 0
      · subst ht
        rw [spawnList_succ_break] at hp
        simp at hp
      · rw [spawnList_succ_zero tpt k ht] at hp
        rcases List.mem_cons.mp hp with h | h
        · rw [h]
        · exact ih _ p h

theorem list_snd_sum_const (c : Nat) :
    ∀ (L : List (Nat × Nat)), (∀ p ∈ L, p.2 = c) →
      (L.map Prod.snd).sum = L.length * c := by
  intro L
  induction L with
  | nil =>
    intro _
    simp
  | cons p L ih =>
    intro h
    simp only [List.map_cons, List.sum_cons, List.length_cons]
    rw [h p (List.mem_cons_self p L), ih (fun p2 hp2 => h p2 (List.mem_cons_of_mem p hp2))]
    ring

/-- The values `main` passes to the workers sum to at most `times`: every
launched worker is passed `times / threads`, and at most `threads` workers
are launched. -/
theorem mainSpawns_passed_sum_le (times threads0 : Nat) :
    ((mainSpawns times threads0).map Prod.snd).sum ≤ times := by
  set T := max threads0 1 with hT
  have hsum := list_snd_sum_const (times / T) (mainSpawns times threads0)
    (fun p hp => spawnList_snd_eq (times / T) T (times % T) p hp)
  rw [hsum]
  calc (mainSpawns times threads0).length * (times / T)
      ≤ T * (times / T) :=
        Nat.mul_le_mul_right _ (spawnList_length_le (times / T) T (times % T))
    _ ≤ times := by
        rw [Nat.mul_comm]
        exact Nat.div_mul_le_self times T

/-- Recursive score sum agrees with the `Finset.range` sum. -/
theorem scoreSum_eq (f : Nat → ℚ) :
    ∀ (r i : Nat), scoreSum f i r = ∑ j ∈ Finset.range r, f (i + j) := by
  intro r
  induction r with
  | zero => intro i; simp [scoreSum]
  | succ r ih =>
    intro i
    rw [scoreSum, ih (i + 1), Finset.sum_range_succ' (fun j => f (i + j)) r]
    have hsum : ∑ j ∈ Finset.range r, f (i + (j + 1)) =
        ∑ j ∈ Finset.range r, f (i + 1 + j) :=
      Finset.sum_congr rfl (fun j _ => by
        have h : i + (j + 1) = i + 1 + j := by omega
        rw [h])
    rw [hsum, Nat.add_zero]
    exact add_comm _ _

theorem addDelta_failTimes (g : TesterInfo) (d : GlobalDelta) :
    (addDelta g d).failTimes = g.failTimes + d.failDelta := rfl

theorem addDelta_runTimes (g : TesterInfo) (d : GlobalDelta) :
    (addDelta g d).runTimes = g.runTimes + d.runDelta := rfl

/-- Folding worker contributions preserves `failTimes ≤ runTimes` and adds
at most the sum of the per-worker iteration counts to `runTimes`. -/
theorem runAll_foldl_bounds (cli : Cli) (parse : Bytes → Option ℚ)
    (envs : Nat → Nat → SpawnResult) (cancels : Nat → Nat → Bool) :
    ∀ (l : List (Nat × Nat × Nat)) (acc : TesterInfo),
      acc.failTimes ≤ acc.runTimes →
      (l.foldl
          (fun a wp => addDelta a (doTest cli parse (envs wp.1) (cancels wp.1) wp.2.2).delta)
          acc).failTimes ≤
        (l.foldl
          (fun a wp => addDelta a (doTest cli parse (envs wp.1) (cancels wp.1) wp.2.2).delta)
          acc).runTimes ∧
      (l.foldl
          (fun a wp => addDelta a (doTest cli parse (envs wp.1) (cancels wp.1) wp.2.2).delta)
          acc).runTimes ≤
        acc.runTimes + (l.map (fun wp => wp.2.2)).sum := by
  intro l
  induction l with
  | nil =>
    intro acc h
    simp only [List.foldl_nil, List.map_nil, List.sum_nil]
    exact ⟨h, by omega⟩
  | cons wp l ih =>
    intro acc h
    simp only [List.foldl_cons, List.map_cons, List.sum_cons]
    have hd := doTest_delta_bounds cli parse (envs wp.1) (cancels wp.1) wp.2.2
    have hacc : (addDelta acc (doTest cli parse (envs wp.1) (cancels wp.1) wp.2.2).delta).failTimes ≤
        (addDelta acc (doTest cli parse (envs wp.1) (cancels wp.1) wp.2.2).delta).runTimes := by
      rw [addDelta_failTimes, addDelta_runTimes]
      omega
    obtain ⟨h1, h2⟩ := ih _ hacc
    refine ⟨h1, ?_⟩
    rw [addDelta_runTimes] at h2
    omega

/-- If two score parsers agree on the stdout of every successful iteration
whenever scoring is on, the loop behaves identically: the score extractor
is consulted only for successful runs with scoring enabled. -/
theorem doTestGo_parse_agree (cli : Cli) (parse1 parse2 : Bytes → Option ℚ)
    (succ : Nat → Bool) (o e : Nat → Bytes) (cancel : Nat → Bool) :
    ∀ (r i : Nat) (st : LoopState),
      (∀ j, i ≤ j → j < i + r → succ j = true → cli.score = true →
        parse1 (o j) = parse2 (o j)) →
      doTestGo cli parse1 (okEnv succ o e) cancel i r st =
        doTestGo cli parse2 (okEnv succ o e) cancel i r st := by
  intro r
  induction r with
  | zero =>
    intro i st _
    rw [doTestGo_zero, doTestGo_zero]
  | succ r ih =>
    intro i st hag
    have hag1 : ∀ j, i + 1 ≤ j → j < i + 1 + r → succ j = true → cli.score = true →
        parse1 (o j) = parse2 (o j) :=
      fun j h1 h2 h3 h4 => hag j (by omega) (by omega) h3 h4
    cases hc : cancel i with
    | true =>
      rw [doTestGo_cancel _ _ _ _ _ _ _ hc, doTestGo_cancel _ _ _ _ _ _ _ hc]
    | false =>
      have he : okEnv succ o e i = SpawnResult.ok (succ i) (o i) (e i) := rfl
      cases hsucc : succ i with
      | false =>
        rw [hsucc] at he
        rw [doTestGo_okFail _ _ _ _ _ _ _ _ _ hc he,
          doTestGo_okFail _ _ _ _ _ _ _ _ _ hc he]
        exact ih (i + 1) _ hag1
      | true =>
        rw [hsucc] at he
        cases hs : cli.score with
        | false =>
          rw [doTestGo_okNoScore _ _ _ _ _ _ _ _ _ hc he hs,
            doTestGo_okNoScore _ _ _ _ _ _ _ _ _ hc he hs]
          exact ih (i + 1) _ hag1
        | true =>
          have hpq : parse1 (o i) = parse2 (o i) :=
            hag i (by omega) (by omega) hsucc hs
          cases hq : parse2 (o i) with
          | none =>
            rw [doTestGo_okScoreNone _ _ _ _ _ _ _ _ _ hc he hs (hpq.trans hq),
              doTestGo_okScoreNone _ _ _ _ _ _ _ _ _ hc he hs hq]
          | some q =>
            rw [doTestGo_okScore _ _ _ _ _ _ _ _ _ q hc he hs (hpq.trans hq),
              doTestGo_okScore _ _ _ _ _ _ _ _ _ q hc he hs hq]
            exact ih (i + 1) _ hag1

/-- Consequences of a worker panic for its aggregate contribution: the
abort is recorded and neither the failure counter nor the score
accumulator receives anything from this worker (`append_result` is never
reached). -/
theorem doTest_abort (cli : Cli) (parse : Bytes → Option ℚ) (env : Nat → SpawnResult)
    (cancel : Nat → Bool) (times : Nat) (a : TestAbort)
    (h : (doTestGo cli parse env cancel 0 times {}).1 = some a) :
    (doTest cli parse env cancel times).abort = some a ∧
      (doTest cli parse env cancel times).delta.failDelta = 0 ∧
      (doTest cli parse env cancel times).delta.scoreDelta = 0 := by
  rcases hgo : doTestGo cli parse env cancel 0 times {} with ⟨a2, st⟩
  rw [hgo] at h
  have ha2 : a2 = some a := h
  subst ha2
  rw [doTest_some _ _ _ _ _ _ _ hgo]
  exact ⟨rfl, rfl, rfl⟩

/-- C1: the claim states that with no failures and no cancellation the
final `runTimes` equals `times` for every `times ≥ 0`, `threads ≥ 1`, and
in particular that at `times = 10`, `threads = 3` the shares are `{4,3,3}`
and the final `runTimes` is 10.  The code does compute the shares
`[4, 3, 3]`, but the spawn loop passes `times_per_thread` (= 3) to every
worker instead of `times_this_thread`, so with an always-succeeding child
and no cancellation the aggregate `runTimes` read by the summary is 9,
not 10. -/
theorem runTimes_drops_remainder_at_10_3 :
    (mainSpawns 10 3).map Prod.fst = [4, 3, 3] ∧
      (mainSpawns 10 3).map Prod.snd = [3, 3, 3] ∧
      (runAll ⟨false, false, false, 10, 3, "/bin/true", []⟩ (fun _ => none)
          (fun _ _ => SpawnResult.ok true [] []) (fun _ _ => false)).runTimes = 9 := by
  refine ⟨by decide, by decide, by decide⟩

/-- C2: the claim states the distributor computes each share as
`times / threads` plus one extra for the first `times % threads` workers,
skips zero-share workers, passes each launched worker exactly its own
share, and that shares sum to `times`.  At `times = 10`, `threads = 3` the
computed shares are `[4, 3, 3]` (summing to 10), but the values actually
passed to the launched workers are `[3, 3, 3]`: the first worker's own
share is 4 while it is passed 3, so "passes each launched worker exactly
its own share count" is false. -/
theorem shares_computed_but_quotient_passed :
    (mainSpawns 10 3).map Prod.fst = [4, 3, 3] ∧
      ((mainSpawns 10 3).map Prod.fst).sum = 10 ∧
      ¬ (mainSpawns 10 3).map Prod.snd = (mainSpawns 10 3).map Prod.fst ∧
      (mainSpawns 10 3).get? 0 = some (4, 3) := by
  refine ⟨by decide, by decide, by decide, by decide⟩

/-- C3: once the cancellation flag is set (modelled by the monotone flag
`cancelAt c`, set from observation `c` on), a worker checks it before each
iteration and exits the loop without spawning: the loop's result does not
depend on the environment at any index at which the flag is set (first
conjunct).  If the worker did not panic it completed exactly
`min c times` iterations, all of which it reports (run, fail and score
deltas, second conjunct); its run contribution never exceeds its share
(third conjunct); and after all workers join the aggregate `runTimes` is
at most the configured `times` (fourth conjunct). -/
theorem cancellation_stops_and_reports (cli : Cli) (parse : Bytes → Option ℚ)
    (env env2 : Nat → SpawnResult) (c times : Nat)
    (envs : Nat → Nat → SpawnResult) (cancels : Nat → Nat → Bool) :
    ((∀ j, j < min c times → env j = env2 j) →
        doTest cli parse env (cancelAt c) times =
          doTest cli parse env2 (cancelAt c) times) ∧
      ((doTest cli parse env (cancelAt c) times).abort = none →
        (doTest cli parse env (cancelAt c) times).final.run = min c times ∧
          (doTest cli parse env (cancelAt c) times).delta.runDelta = min c times ∧
          (doTest cli parse env (cancelAt c) times).delta.failDelta =
            (doTest cli parse env (cancelAt c) times).final.fail ∧
          (doTest cli parse env (cancelAt c) times).delta.scoreDelta =
            (if cli.score then (doTest cli parse env (cancelAt c) times).final.scores
              else 0)) ∧
      (doTest cli parse env (cancelAt c) times).delta.runDelta ≤ times ∧
      (runAll cli parse envs cancels).runTimes ≤ cli.times := by
  refine ⟨?_, ?_, ?_, ?_⟩
  · intro hag
    unfold doTest
    rw [doTestGo_env_agree cli parse (cancelAt c) env env2 times 0 {} ?_]
    intro j h1 h2 hcf
    apply hag
    have hj : ¬ c ≤ j := by simpa [cancelAt] using hcf
    omega
  · intro habort
    rcases hgo : doTestGo cli parse env (cancelAt c) 0 times {} with ⟨a, st⟩
    cases a with
    | some a =>
      rw [doTest_some _ _ _ _ _ _ _ hgo] at habort
      exact absurd habort (by simp)
    | none =>
      have hrun : st.run = min c times := by
        have h := doTestGo_cancelAt_run cli parse env c times 0 {}
        rw [hgo] at h
        have h2 : st.run = 0 + min (c - 0) times := h rfl
        omega
      have hInv := doTestGo_inv cli parse env (cancelAt c) times 0 {} (by simp [Inv])
      rw [hgo] at hInv
      have hpu : st.pushed = (if cli.progress then st.run else 0) := hInv.1.2
      rw [doTest_none _ _ _ _ _ _ hgo]
      refine ⟨hrun, ?_, rfl, rfl⟩
      show st.pushed + (if cli.progress then 0 else st.run) = min c times
      cases hpro : cli.progress <;> simp [hpro] at hpu ⊢ <;> omega
  · exact (doTest_delta_bounds cli parse env (cancelAt c) times).2
  · have h := (runAll_foldl_bounds cli parse envs cancels
      ((mainSpawns cli.times cli.threads).enum) ⟨0, 0, 0⟩ (by simp)).2
    have hmap : (((mainSpawns cli.times cli.threads).enum).map
        (fun wp : Nat × Nat × Nat => wp.2.2)).sum =
        ((mainSpawns cli.times cli.threads).map Prod.snd).sum := by
      have h1 : ((mainSpawns cli.times cli.threads).enum).map
          (fun wp : Nat × Nat × Nat => wp.2.2) =
          (((mainSpawns cli.times cli.threads).enum).map Prod.snd).map Prod.snd := by
        rw [List.map_map]
        rfl
      rw [h1, List.enum_map_snd]
    rw [hmap] at h
    have hle := mainSpawns_passed_sum_le cli.times cli.threads
    unfold runAll
    exact h.trans (by simpa using hle)

/-- C3 witness: a worker given 5 iterations under a flag set from
observation 2 on completes exactly 2 of them and reports them. -/
theorem cancellation_stops_and_reports_witness :
    (doTest ⟨false, true, false, 5, 2, "x", []⟩ (fun _ => some 1)
        (fun _ => SpawnResult.ok true [] []) (cancelAt 2) 5).final.run = 2 ∧
      (doTest ⟨false, true, false, 5, 2, "x", []⟩ (fun _ => some 1)
        (fun _ => SpawnResult.ok true [] []) (cancelAt 2) 5).delta.runDelta = 2 ∧
      (runAll ⟨false, true, false, 5, 2, "x", []⟩ (fun _ => some 1)
        (fun _ _ => SpawnResult.ok true [] []) (fun _ => cancelAt 2)).runTimes ≤ 5 := by
  have h := cancellation_stops_and_reports ⟨false, true, false, 5, 2, "x", []⟩
    (fun _ => some 1) (fun _ => SpawnResult.ok true [] [])
    (fun _ => SpawnResult.ok true [] []) 2 5
    (fun _ _ => SpawnResult.ok true [] []) (fun _ => cancelAt 2)
  have h2 := h.2.1 (by decide)
  exact ⟨by simpa using h2.1, by simpa using h2.2.1, h.2.2.2⟩

/-- C4: the score extractor runs only when scoring is enabled and the
child exited successfully — the loop's result depends on the parser only
at the stdout of successful iterations with scoring on (first conjunct).
With scoring on and every successful stdout parsing to `qf i`, the worker
finishes without abort and `totalScore` receives exactly the sum of the
parsed scores of the successful iterations (second conjunct); with scoring
off nothing is added (third conjunct); and an unparsable stdout of a
successful iteration (UTF-8 decode or number-parse failure, `parse = none`)
aborts the whole worker at that iteration, with nothing reported
(fourth conjunct). -/
theorem score_extractor_contract (cli : Cli) (parse parse2 : Bytes → Option ℚ)
    (succ : Nat → Bool) (o e : Nat → Bytes) (qf : Nat → ℚ) (times k : Nat) :
    ((∀ i, i < times → succ i = true → cli.score = true → parse (o i) = parse2 (o i)) →
        doTest cli parse (okEnv succ o e) noCancel times =
          doTest cli parse2 (okEnv succ o e) noCancel times) ∧
      (cli.score = true →
        (∀ i, i < times → succ i = true → parse (o i) = some (qf i)) →
        (doTest cli parse (okEnv succ o e) noCancel times).abort = none ∧
          (doTest cli parse (okEnv succ o e) noCancel times).final.scores =
            ∑ i ∈ Finset.range times, (if succ i then qf i else 0) ∧
          (doTest cli parse (okEnv succ o e) noCancel times).delta.scoreDelta =
            ∑ i ∈ Finset.range times, (if succ i then qf i else 0)) ∧
      (cli.score = false →
        (doTest cli parse (okEnv succ o e) noCancel times).delta.scoreDelta = 0) ∧
      (cli.score = true → k < times → succ k = true → parse (o k) = none →
        (∀ i, i < k → succ i = true → (parse (o i)).isSome) →
        (doTest cli parse (okEnv succ o e) noCancel times).abort =
            some (TestAbort.scoreParseFailed k) ∧
          (doTest cli parse (okEnv succ o e) noCancel times).delta.scoreDelta = 0) := by
  refine ⟨?_, ?_, ?_, ?_⟩
  · intro hag
    unfold doTest
    rw [doTestGo_parse_agree cli parse parse2 succ o e noCancel times 0 {} ?_]
    intro j h1 h2 h3 h4
    exact hag j (by omega) h3 h4
  · intro hs hp
    have hclean := doTestGo_clean cli parse succ o e qf times 0 {}
      (fun j h1 h2 h3 h4 => hp j (by omega) h3)
    rw [doTest_none _ _ _ _ _ _ hclean]
    have hsum : (0 : ℚ) +
        (if cli.score then scoreSum (fun j => if succ j then qf j else 0) 0 times
          else 0) = ∑ i ∈ Finset.range times, (if succ i then qf i else 0) := by
      rw [hs]
      simp only [if_true, zero_add]
      rw [scoreSum_eq]
      exact Finset.sum_congr rfl (fun j _ => by rw [Nat.zero_add])
    exact ⟨rfl, hsum, by rw [hs] at hsum ⊢; simpa using hsum⟩
  · intro hs
    rcases hgo : doTestGo cli parse (okEnv succ o e) noCancel 0 times {} with ⟨a, st⟩
    cases a with
    | none =>
      rw [doTest_none _ _ _ _ _ _ hgo]
      simp [hs]
    | some a =>
      rw [doTest_some _ _ _ _ _ _ _ hgo]
  · intro hs hk hsk hbad hprevOK
    have henvk : okEnv succ o e k = SpawnResult.ok true (o k) (e k) := by
      simp [okEnv, hsk]
    have habort := (doTestGo_abort_at cli parse (okEnv succ o e) k times 0 {}
      (by omega) (by omega)
      (fun j h1 h2 => ⟨succ j, o j, e j, rfl, fun ht _ => hprevOK j h2 ht⟩)).2.2
      (o k) (e k) henvk hs hbad
    have hres := doTest_abort cli parse (okEnv succ o e) noCancel times
      (TestAbort.scoreParseFailed k) habort.1
    exact ⟨hres.1, hres.2.2⟩

/-- C4 witness: three iterations, those at even indices succeed printing a
score of 5/2 each; the accumulated delta equals the sum over the
successful iterations.  A second application: with the failing parser on a
successful first iteration the worker aborts at index 0 and contributes no
score. -/
theorem score_extractor_contract_witness :
    (doTest ⟨false, true, false, 3, 1, "x", []⟩ (fun _ => some ((5 : ℚ) / 2))
        (okEnv (fun i => decide (i % 2 = 0)) (fun _ => []) (fun _ => []))
        noCancel 3).delta.scoreDelta =
      ∑ i ∈ Finset.range 3, (if decide (i % 2 = 0) then ((5 : ℚ) / 2) else 0) ∧
    (doTest ⟨false, true, false, 3, 1, "x", []⟩ (fun _ => none)
        (okEnv (fun _ => true) (fun _ => []) (fun _ => [])) noCancel 3).abort =
      some (TestAbort.scoreParseFailed 0) := by
  constructor
  · exact ((score_extractor_contract ⟨false, true, false, 3, 1, "x", []⟩
      (fun _ => some ((5 : ℚ) / 2)) (fun _ => some ((5 : ℚ) / 2))
      (fun i => decide (i % 2 = 0)) (fun _ => []) (fun _ => [])
      (fun _ => (5 : ℚ) / 2) 3 0).2.1 rfl (fun i _ _ => rfl)).2.2
  · exact ((score_extractor_contract ⟨false, true, false, 3, 1, "x", []⟩
      (fun _ => none) (fun _ => none) (fun _ => true) (fun _ => []) (fun _ => [])
      (fun _ => 0) 3 0).2.2.2 rfl (by decide) rfl rfl
      (fun i hi _ => absurd hi (by omega))).1

/-- C7: a spawn failure (`Command::spawn` returning `Err`) or a wait
failure (`wait_with_output` returning `Err`) at iteration `k` — after `k`
clean iterations — panics the worker right there: the abort is recorded,
no later iteration runs (the local run count stays `k`), and `failTimes`
receives nothing from this worker for that occurrence (nor anything else:
`append_result` is never reached). -/
theorem spawn_or_wait_failure_aborts (cli : Cli) (parse : Bytes → Option ℚ)
    (env : Nat → SpawnResult) (succ : Nat → Bool) (o e : Nat → Bytes)
    (k times : Nat) (hk : k < times)
    (hprev : ∀ j, j < k → env j = SpawnResult.ok (succ j) (o j) (e j))
    (hparse : ∀ j, j < k → succ j = true → cli.score = true → (parse (o j)).isSome) :
    (env k = SpawnResult.spawnFail →
        (doTest cli parse env noCancel times).abort = some (TestAbort.spawnFailed k) ∧
          (doTest cli parse env noCancel times).delta.failDelta = 0 ∧
          (doTest cli parse env noCancel times).delta.scoreDelta = 0 ∧
          (doTest cli parse env noCancel times).final.run = k) ∧
      (env k = SpawnResult.waitFail →
        (doTest cli parse env noCancel times).abort = some (TestAbort.waitFailed k) ∧
          (doTest cli parse env noCancel times).delta.failDelta = 0 ∧
          (doTest cli parse env noCancel times).delta.scoreDelta = 0 ∧
          (doTest cli parse env noCancel times).final.run = k) := by
  have hat := doTestGo_abort_at cli parse env k times 0 {} (by omega) (by omega)
    (fun j h1 h2 => ⟨succ j, o j, e j, hprev j h2, fun ht hsc => hparse j h2 ht hsc⟩)
  constructor
  · intro he
    obtain ⟨h1, h2⟩ := hat.1 he
    have hres := doTest_abort cli parse env noCancel times (TestAbort.spawnFailed k) h1
    refine ⟨hres.1, hres.2.1, hres.2.2, ?_⟩
    rcases hgo : doTestGo cli parse env noCancel 0 times {} with ⟨a, st⟩
    rw [hgo] at h1 h2
    have ha : a = some (TestAbort.spawnFailed k) := h1
    subst ha
    rw [doTest_some _ _ _ _ _ _ _ hgo]
    have hr : st.run = 0 + (k - 0) := h2
    show st.run = k
    omega
  · intro he
    obtain ⟨h1, h2⟩ := hat.2.1 he
    have hres := doTest_abort cli parse env noCancel times (TestAbort.waitFailed k) h1
    refine ⟨hres.1, hres.2.1, hres.2.2, ?_⟩
    rcases hgo : doTestGo cli parse env noCancel 0 times {} with ⟨a, st⟩
    rw [hgo] at h1 h2
    have ha : a = some (TestAbort.waitFailed k) := h1
    subst ha
    rw [doTest_some _ _ _ _ _ _ _ hgo]
    have hr : st.run = 0 + (k - 0) := h2
    show st.run = k
    omega

/-- C7 witness: a spawn failure at iteration 1 of 4 (after one clean
successful iteration) aborts the worker with one completed iteration and a
zero contribution to `failTimes`. -/
theorem spawn_or_wait_failure_aborts_witness :
    (doTest ⟨false, false, false, 4, 1, "x", []⟩ (fun _ => none)
        (fun i => if i = 0 then SpawnResult.ok true [] [] else SpawnResult.spawnFail)
        noCancel 4).abort = some (TestAbort.spawnFailed 1) ∧
      (doTest ⟨false, false, false, 4, 1, "x", []⟩ (fun _ => none)
        (fun i => if i = 0 then SpawnResult.ok true [] [] else SpawnResult.spawnFail)
        noCancel 4).delta.failDelta = 0 ∧
      (doTest ⟨false, false, false, 4, 1, "x", []⟩ (fun _ => none)
        (fun i => if i = 0 then SpawnResult.ok true [] [] else SpawnResult.spawnFail)
        noCancel 4).final.run = 1 := by
  have h := spawn_or_wait_failure_aborts ⟨false, false, false, 4, 1, "x", []⟩
    (fun _ => none)
    (fun i => if i = 0 then SpawnResult.ok true [] [] else SpawnResult.spawnFail)
    (fun _ => true) (fun _ => []) (fun _ => []) 1 4 (by decide)
    (fun j hj => by rw [Nat.lt_one_iff.mp hj]; rfl)
    (fun j hj ht hsc => by simp at hsc)
  obtain ⟨h1, h2, h3, h4⟩ := h.1 (by decide)
  exact ⟨h1, h2, h4⟩

/-- C8: after all workers join, the aggregate `failTimes` is at most the
aggregate `runTimes`, for every configuration, every pattern of child
successes, failures, spawn/wait panics and score-parse panics, and every
pattern of cancellation observations. -/
theorem aggregate_fail_le_run (cli : Cli) (parse : Bytes → Option ℚ)
    (envs : Nat → Nat → SpawnResult) (cancels : Nat → Nat → Bool) :
    (runAll cli parse envs cancels).failTimes ≤
      (runAll cli parse envs cancels).runTimes := by
  have h := (runAll_foldl_bounds cli parse envs cancels
    ((mainSpawns cli.times cli.threads).enum) ⟨0, 0, 0⟩ (by simp)).1
  unfold runAll
  exact h

/-- C9: when `--silent` is off, a worker whose iterations all complete
writes, once per iteration and in iteration order, the captured stdout
bytes and then the captured stderr bytes of that iteration (the echo uses
the captured buffers, i.e. happens only after the child terminated); when
`--silent` is on nothing is echoed. -/
theorem echo_verbatim_per_iteration (cli : Cli) (parse : Bytes → Option ℚ)
    (succ : Nat → Bool) (o e : Nat → Bytes) (qf : Nat → ℚ) (times : Nat)
    (hp : ∀ i, i < times → succ i = true → cli.score = true →
      parse (o i) = some (qf i)) :
    (cli.silent = false →
        (doTest cli parse (okEnv succ o e) noCancel times).final.echoes =
          echoTrace o e 0 times) ∧
      (cli.silent = true →
        (doTest cli parse (okEnv succ o e) noCancel times).final.echoes = []) := by
  have hclean := doTestGo_clean cli parse succ o e qf times 0 {}
    (fun j h1 h2 h3 h4 => hp j (by omega) h3 h4)
  rw [doTest_none _ _ _ _ _ _ hclean]
  constructor
  · intro h
    show ([] : List Echo) ++ (if cli.silent then [] else echoTrace o e 0 times) = _
    simp [h]
  · intro h
    show ([] : List Echo) ++ (if cli.silent then [] else echoTrace o e 0 times) = _
    simp [h]

/-- C9 witness: two successful iterations with distinct outputs are echoed
as stdout-then-stderr, twice, in order. -/
theorem echo_verbatim_per_iteration_witness :
    (doTest ⟨false, false, false, 2, 1, "x", []⟩ (fun _ => none)
        (okEnv (fun _ => true) (fun i => [i]) (fun i => [i + 10])) noCancel 2).final.echoes =
      [Echo.out [0], Echo.err [10], Echo.out [1], Echo.err [11]] := by
  have h := (echo_verbatim_per_iteration ⟨false, false, false, 2, 1, "x", []⟩
    (fun _ => none) (fun _ => true) (fun i => [i]) (fun i => [i + 10]) (fun _ => 0) 2
    (fun i hi ht hsc => by simp at hsc)).1 rfl
  rw [h]
  decide

/-- C5: `print_summary` prints the line `#tester finished. Failed <f> / <r>`
exactly when `failTimes > 0`, followed — exactly when scoring is on — by
the average-score line dividing `totalScore` by `runTimes - failTimes`;
with `failTimes = 0` it prints `#tester finished. No failure in <r> runs.`
followed, when scoring is on, by the average dividing by `runTimes`. -/
theorem print_summary_branches (score : Bool) (f r : Nat) (s : ℚ) :
    (0 < f → printSummary score f r s = SummaryLine.failed f r ::
        (if score then [SummaryLine.avgIgnoreFailed s (r - f)] else [])) ∧
      (f = 0 → printSummary score f r s = SummaryLine.noFailure r ::
        (if score then [SummaryLine.avgAll s r] else [])) ∧
      renderHeader (SummaryLine.failed f r) =
        some ("#tester finished. " ++ ("Failed " ++ toString f ++ " / " ++ toString r)) ∧
      renderHeader (SummaryLine.noFailure r) =
        some ("#tester finished. " ++ ("No failure in " ++ toString r ++ " runs.")) ∧
      (f ≤ r → avgValue (SummaryLine.avgIgnoreFailed s (r - f)) =
        some (s / ((r : ℚ) - (f : ℚ)))) ∧
      avgValue (SummaryLine.avgAll s r) = some (s / (r : ℚ)) := by
  refine ⟨?_, ?_, rfl, rfl, ?_, rfl⟩
  · intro h
    simp [printSummary, h]
  · intro h
    simp [printSummary, h]
  · intro h
    show some (s / ((r - f : Nat) : ℚ)) = some (s / ((r : ℚ) - (f : ℚ)))
    rw [Nat.cast_sub h]

/-- C5 witness: one failure out of three runs with scoring on. -/
theorem print_summary_branches_witness :
    printSummary true 1 3 6 =
      [SummaryLine.failed 1 3, SummaryLine.avgIgnoreFailed 6 2] ∧
      avgValue (SummaryLine.avgIgnoreFailed 6 (3 - 1)) =
        some ((6 : ℚ) / ((3 : ℚ) - (1 : ℚ))) := by
  have h := print_summary_branches true 1 3 6
  exact ⟨by simpa using h.1 (by decide), h.2.2.2.2.1 (by decide)⟩

/-- C6 counterexample: the claim says the reporter guards the
average-score division by zero and reports the average as undefined or
omits the score line.  There is no guard in `print_summary`: with scoring
on and every run failed (`failTimes = runTimes = 1`, `totalScore = 0`) the
score line is still emitted, carrying denominator `runTimes - failTimes
= 0` — the division is performed on a zero denominator rather than being
guarded or the line omitted. -/
theorem summary_keeps_score_line_when_all_failed :
    printSummary true 1 1 0 =
      [SummaryLine.failed 1 1, SummaryLine.avgIgnoreFailed 0 0] := by
  decide

/-- C6 amended: `print_summary` performs the average-score division
unconditionally — whenever scoring is on and all runs failed, the score
line is still printed with denominator `runTimes - failTimes = 0` (in the
source the division is IEEE-754 `f64`, so the process does not crash and
the line shows `NaN`; there is no explicit guard and the line is never
omitted). -/
theorem summary_division_unguarded_all_failed (f : Nat) (s : ℚ) (h : 0 < f) :
    printSummary true f f s =
      [SummaryLine.failed f f, SummaryLine.avgIgnoreFailed s 0] := by
  simp [printSummary, h, Nat.sub_self]

/-- C6 witness: the amended statement at two failed runs and accumulated
score 5. -/
theorem summary_division_unguarded_all_failed_witness :
    0 < 2 ∧ printSummary true 2 2 5 =
      [SummaryLine.failed 2 2, SummaryLine.avgIgnoreFailed 5 0] :=
  ⟨by decide, summary_division_unguarded_all_failed 2 5 (by decide)⟩

/-- C10: the `-p` worker-count flag is parsed into the 8-bit field
`threads : u8`, so any accepted value is at most 255 and the number of
workers spawned by `main` never exceeds 255; a requested count above 255
is rejected by the argument parser (`parseThreadsArg 256 = none`), not
clamped. -/
theorem worker_count_u8_capped (n t times : Nat)
    (h : parseThreadsArg n = some t) :
    (mainSpawns times t).length ≤ 255 ∧ parseThreadsArg 256 = none := by
  have ht : t ≤ 255 := by
    by_cases hn : n ≤ 255
    · have h2 : some n = some t := by simpa [parseThreadsArg, hn] using h
      injection h2 with h3
      omega
    · simp [parseThreadsArg, hn] at h
  constructor
  · unfold mainSpawns
    exact le_trans (spawnList_length_le _ _ _) (Nat.max_le.mpr ⟨ht, by omega⟩)
  · decide

/-- C10 witness: the parse of `-p 3` is accepted and bounds the worker
count at `times = 1000`. -/
theorem worker_count_u8_capped_witness :
    (mainSpawns 1000 3).length ≤ 255 ∧ parseThreadsArg 256 = none :=
  worker_count_u8_capped 3 3 1000 (by decide)

end Tester
